import Mathlib

/-!
Formal model of the HW5_BidOptimizer pricing engine.

The definitions below are a shallow embedding of `space_logic.py`
(the Bucket / Level / Space data structures, bucket-grid construction and
the recalibration pass) and `server.py` (the optimize / feedback request
handlers and the background learning loop).  Python floats are modelled as
rationals, Python dictionaries as association lists, raised exceptions as
`Option` results (with the partially mutated state kept where the original
mutates in place), and the randomness of `random.expovariate` is
parametrised by the list of drawn samples.
-/

namespace BidOptimizer

/-- Model of `space_logic.Bucket`: a price sub-interval `[lhs, rhs]` with a
bounded window `buffer` of recent outcomes (newest at the head, as the
Python code inserts at index 0 and pops from the end), Beta-style
pseudo-counts `alpha`/`beta` seeded at 1, a smoothed probability `pr`, and
a lifetime update counter `update_qty`. -/
structure Bucket where
  lhs : ℚ
  rhs : ℚ
  alpha : ℚ
  beta : ℚ
  buffer : List Bool
  size : ℕ
  discount : ℚ
  pr : ℚ
  update_qty : ℕ
deriving Repr, DecidableEq

/-- Model of `Bucket.__init__`. -/
def Bucket.init (lhs rhs : ℚ) (size : ℕ) (discount : ℚ) : Bucket :=
  { lhs := lhs, rhs := rhs, alpha := 1, beta := 1, buffer := [],
    size := size, discount := discount, pr := 1/2, update_qty := 0 }

/-- Model of `Bucket.update`.  A `none` result models the `IndexError`
raised by `self.buffer.pop()` on an empty buffer (reachable only when
`size = 0`, which configuration validation forbids). -/
def Bucket.update (b : Bucket) (impression : Bool) : Option Bucket :=
  let b := { b with update_qty := b.update_qty + 1 }
  let popped : Option Bucket :=
    if b.size ≤ b.buffer.length then
      match b.buffer.getLast? with
      | none => none
      | some oldest =>
        some { b with buffer := b.buffer.dropLast,
                      alpha := if oldest then b.alpha - 1 else b.alpha,
                      beta := if oldest then b.beta else b.beta - 1 }
    else some b
  popped.map fun b1 =>
    let b2 := { b1 with buffer := impression :: b1.buffer,
                        alpha := if impression then b1.alpha + 1 else b1.alpha,
                        beta := if impression then b1.beta else b1.beta + 1 }
    { b2 with pr := b2.discount * b2.pr +
                    (1 - b2.discount) * (b2.alpha / (b2.alpha + b2.beta)) }

/-- Iterate `Bucket.update` over a finite sequence of outcomes. -/
def Bucket.runUpdates (b : Bucket) : List Bool → Option Bucket
  | [] => some b
  | o :: os => (b.update o).bind fun b1 => b1.runUpdates os

/-- The window invariant maintained by `Bucket.update`: the pseudo-counts
are 1 plus the number of windowed wins / losses, and the window length is
`min update_qty size`. -/
def Bucket.Inv (b : Bucket) : Prop :=
  b.alpha = 1 + (b.buffer.count true : ℚ) ∧
  b.beta = 1 + (b.buffer.count false : ℚ) ∧
  b.buffer.length = min b.update_qty b.size

/-- Model of `space_logic.Level`: the bucket list and the parallel
`winning_curve` array. -/
structure Level where
  buckets : List Bucket
  winning_curve : List ℚ
deriving Repr, DecidableEq

/-- Model of `Level.__init__`: the winning curve starts at 0.5 per bucket. -/
def Level.ofBuckets (buckets : List Bucket) : Level :=
  { buckets := buckets, winning_curve := buckets.map fun _ => 1/2 }

/-- Helper for `Level.sample_buckets`: linear scan carrying the current
index, mirroring `enumerate` in the Python code. -/
def locateAux (price : ℚ) : List Bucket → ℕ → ℤ
  | [], _ => -1
  | b :: bs, i =>
    if b.lhs ≤ price ∧ price ≤ b.rhs then (i : ℤ) else locateAux price bs (i + 1)

/-- Model of `Level.sample_buckets`: first bucket whose closed interval
contains the price, else the sentinel -1. -/
def Level.sample_buckets (lvl : Level) (price : ℚ) : ℤ :=
  locateAux price lvl.buckets 0

/-- One calibration sample appended by `Space.update_feedback`:
the bucket's post-update `pr`, the bucket midpoint price, and the outcome
as the integer `int(impression)`. -/
structure Sample where
  pr : ℚ
  price : ℚ
  impression : ℕ
deriving Repr, DecidableEq

/-- Model of `space_logic.Space` (without the lock object, whose usage is
modelled separately by the event traces below).  The Python
`learning_data` dict with keys `0..len(levels)-1` is modelled as a list
parallel to `levels`. -/
structure Space where
  context_hash : String
  levels : List Level
  learning_data : List (List Sample)
deriving Repr, DecidableEq

/-- Model of `Space.__init__`. -/
def Space.init (context_hash : String) (levels : List Level) : Space :=
  { context_hash := context_hash, levels := levels,
    learning_data := levels.map fun _ => [] }

/-- The training step of `Space.learn` (`lgb.train` followed by
`model.predict`), abstracted as in the spec's pluggable-model contract:
given the sample list it either raises (`none`) or returns a model, a
function from the features `(bucket.pr, mid_price)` to a probability. -/
def TrainFn : Type := List Sample → Option (ℚ → ℚ → ℚ)

/-- One iteration of the `for` loop in `Space.learn` for a single level:
skip below 10 samples; otherwise train (possibly raising), rewrite the
whole winning curve from the model at each bucket midpoint, and clear the
sample list. -/
def learnLevel (train : TrainFn) (lvl : Level) (data : List Sample) :
    Option (Level × List Sample) :=
  if data.length < 10 then some (lvl, data)
  else
    match train data with
    | none => none
    | some model =>
      some ({ lvl with winning_curve :=
                lvl.buckets.map fun b => model b.pr ((b.lhs + b.rhs) / 2) },
            [])

/-- The `for` loop of `Space.learn` over all levels.  A raised exception
(`none` from `learnLevel`) aborts the loop: the failing level and all
remaining levels keep their state, and the boolean records that the
exception escaped `learn`. -/
def learnLevels (train : TrainFn) :
    List (Level × List Sample) → List (Level × List Sample) × Bool
  | [] => ([], false)
  | (lvl, data) :: rest =>
    match learnLevel train lvl data with
    | none => ((lvl, data) :: rest, true)
    | some res =>
      let r := learnLevels train rest
      (res :: r.1, r.2)

/-- Model of `Space.learn`: returns the space as mutated by the loop and
whether an exception escaped. -/
def Space.learn (sp : Space) (train : TrainFn) : Space × Bool :=
  let r := learnLevels train (sp.levels.zip sp.learning_data)
  ({ sp with levels := r.1.map Prod.fst, learning_data := r.1.map Prod.snd },
   r.2)

/-- One iteration of the `for` loop in `Space.update_feedback` for a single
level: a -1 index is skipped; otherwise the located bucket is updated and
a calibration sample (with the bucket's post-update `pr`) is appended.
`none` models an uncaught exception from `Bucket.update` or an
out-of-range index. -/
def feedLevel (impression : Bool) (lvl : Level) (data : List Sample)
    (idx : ℤ) : Option (Level × List Sample) :=
  if idx = -1 then some (lvl, data)
  else
    match lvl.buckets[idx.toNat]? with
    | none => none
    | some b =>
      match b.update impression with
      | none => none
      | some b1 =>
        some ({ lvl with buckets := lvl.buckets.set idx.toNat b1 },
              data ++ [{ pr := b1.pr, price := (b1.lhs + b1.rhs) / 2,
                         impression := if impression then 1 else 0 }])

/-- The `for` loop of `Space.update_feedback` over all levels, paired with
their bucket indices.  An exception aborts the loop keeping earlier
mutations; the boolean records whether it escaped. -/
def feedLevels (impression : Bool) :
    List ((Level × List Sample) × ℤ) → List (Level × List Sample) × Bool
  | [] => ([], false)
  | ((lvl, data), idx) :: rest =>
    match feedLevel impression lvl data idx with
    | none => ((lvl, data) :: rest.map Prod.fst, true)
    | some res =>
      let r := feedLevels impression rest
      (res :: r.1, r.2)

/-- Model of `Space.update_feedback` (the mutation inside `with self.lock`;
the lock usage itself is modelled by the event traces below). -/
def Space.update_feedback (sp : Space) (buckets_indices : List ℤ)
    (impression : Bool) : Space × Bool :=
  let r := feedLevels impression ((sp.levels.zip sp.learning_data).zip buckets_indices)
  ({ sp with levels := r.1.map Prod.fst, learning_data := r.1.map Prod.snd },
   r.2)

/-- Model of `server.background_learning` for one cycle: each space is
recalibrated in turn, and the `try`/`except` around `sp.learn()` catches
a failure of one space so the loop continues with the others. -/
def background_pass (train : TrainFn) (sps : List Space) : List Space :=
  sps.map fun sp => (sp.learn train).1

/-- Model of `space_logic.generate_bucket_bounds`.  The `n_buckets + 1`
draws of `random.expovariate` are passed in as `samples`; the function
sorts them and affinely rescales so the extremes map onto
`[min_price, max_price]`.  `head?.getD 0` / `getLast?.getD 0` stand for
`bounds[0]` / `bounds[-1]`, which the Python code can only evaluate on a
nonempty list (`n_buckets + 1 ≥ 1` draws). -/
def generate_bucket_bounds (samples : List ℚ) (min_price max_price : ℚ) :
    List ℚ :=
  let bounds := samples.insertionSort (· ≤ ·)
  let mi := bounds.head?.getD 0
  let ma := bounds.getLast?.getD 0
  bounds.map fun v => ((v - mi) / (ma - mi)) * (max_price - min_price) + min_price

/-- The configuration record read from `config.json`, restricted to the
fields the core uses. -/
structure Config where
  level_size : ℕ
  bucket_size : ℕ
  buffer_size : ℕ
  discount : ℚ
deriving Repr, DecidableEq

/-- Build buckets from consecutive bounds, as `new_buckets` does with
`lhs = bounds[:-1]`, `rhs = bounds[1:]`. -/
def adjBuckets (size : ℕ) (discount : ℚ) (l : List ℚ) : List Bucket :=
  (l.zip l.tail).map fun p => Bucket.init p.1 p.2 size discount

/-- Model of `space_logic.new_buckets`.  The Python loop builds exactly
`cfg.bucket_size` buckets out of `bucket_size + 1` bounds; pairing each
bound with its successor yields the same list whenever
`samples.length = cfg.bucket_size + 1`. -/
def new_buckets (samples : List ℚ) (min_price max_price : ℚ) (cfg : Config) :
    List Bucket :=
  adjBuckets cfg.buffer_size cfg.discount
    (generate_bucket_bounds samples min_price max_price)

/-- Model of one `request_store` entry created by `optimize`. -/
structure ReqEntry where
  price : ℚ
  floor_price : ℚ
  attempts : ℕ
  impressions : ℕ
  context_hash : String
  data_center : String
  ad_format : String
  pub_id : String
  bundle_id : String
  tag_id : String
  cc : String
deriving Repr, DecidableEq

/-- Association-list lookup modelling a Python dict read (`k in d`,
`d[k]`). -/
def alookup (k : String) : List (String × α) → Option α
  | [] => none
  | (k1, v) :: rest => if k1 = k then some v else alookup k rest

/-- In-place mutation of the dict entry at a key, modelling
`state["attempts"] += 1` and the like. -/
def updateEntry (s : List (String × α)) (k : String) (f : α → α) :
    List (String × α) :=
  s.map fun p => if p.1 = k then (p.1, f p.2) else p

/-- The server's global mutable state: `spaces_dict` and `request_store`. -/
structure ServerState where
  spaces_dict : List (String × Space)
  request_store : List (String × ReqEntry)
deriving Repr, DecidableEq

/-- Model of `server.EXPLORATION_ROUNDS`. -/
def EXPLORATION_ROUNDS : ℕ := 3

/-- The JSON body of an `/optimize` request.  `none` for `price` or
`floor_price` and `""` for `id` model the missing-field cases the handler
rejects; `ctx_hash` already carries the `"default_ctx"` default applied by
`data.get`. -/
structure OptimizeReq where
  id : String
  price : Option ℚ
  floor_price : Option ℚ
  ctx_hash : String
  data_center : String
  ad_format : String
  pub_id : String
  bundle_id : String
  tag_id : String
  cc : String
deriving Repr, DecidableEq

/-- The bid status strings returned by `optimize`. -/
inductive BidStatus
  | explored
  | optimized
  | error
deriving Repr, DecidableEq

/-- An HTTP response of the `/optimize` handler: a 400 rejection with an
error message, or a 200 payload `{optimized_price, status}`. -/
inductive OptResponse
  | badRequest (msg : String)
  | priced (optimized_price : ℚ) (status : BidStatus)
deriving Repr, DecidableEq

/-- The fresh ledger entry `optimize` creates for an unseen request id. -/
def freshEntry (req : OptimizeReq) (price floor_price : ℚ) : ReqEntry :=
  { price := price, floor_price := floor_price, attempts := 0,
    impressions := 0, context_hash := req.ctx_hash,
    data_center := req.data_center, ad_format := req.ad_format,
    pub_id := req.pub_id, bundle_id := req.bundle_id, tag_id := req.tag_id,
    cc := req.cc }

/-- Model of the `/optimize` handler of `server.py` (after JSON parsing):
missing-field check, unknown-context check, the `price < floor_price`
business error, ledger creation and `attempts` increment, price shrink
`price * 0.9` clamped up to the floor, and the exploration status. -/
def optimize (st : ServerState) (req : OptimizeReq) :
    ServerState × OptResponse :=
  match req.price, req.floor_price with
  | some price, some floor_price =>
    if req.id = "" then (st, .badRequest "Missing required fields: id")
    else if (alookup req.ctx_hash st.spaces_dict).isNone then
      (st, .badRequest "Unknown context")
    else if price < floor_price then (st, .priced 0 .error)
    else
      let store1 :=
        if (alookup req.id st.request_store).isNone then
          st.request_store ++ [(req.id, freshEntry req price floor_price)]
        else st.request_store
      let store2 := updateEntry store1 req.id
        fun e => { e with attempts := e.attempts + 1 }
      match alookup req.id store2 with
      | none => ({ st with request_store := store2 },
                 .badRequest "unreachable")
      | some state =>
        let candidate_price := price * (9/10)
        let optimized_price := max candidate_price floor_price
        let status :=
          if state.attempts ≤ EXPLORATION_ROUNDS then BidStatus.explored
          else if 0 < state.impressions then BidStatus.optimized
          else BidStatus.explored
        ({ st with request_store := store2 },
         .priced optimized_price status)
  | _, _ => (st, .badRequest "Missing required fields")

/-- The JSON body of a `/feedback` request. -/
structure FeedbackReq where
  id : String
  price : Option ℚ
  impression : Option Bool
deriving Repr, DecidableEq

/-- An HTTP response of the `/feedback` handler: a 400 rejection, an
uncaught exception escaping the handler, or a 200 `{ack}` payload. -/
inductive FbResponse
  | badRequest (msg : String)
  | raised
  | ack (acknowledged : Bool)
deriving Repr, DecidableEq

/-- Model of the `/feedback` handler of `server.py` (after JSON parsing):
missing-field check, soft failure with `ack = false` for an unknown
request id, then `impressions` increment, bucket location per level and
`Space.update_feedback` on the resolved space.  A `KeyError` on
`spaces_dict[ctx_hash]` or an exception inside `update_feedback` escapes
after the mutations made so far, as in the Python code. -/
def feedback (st : ServerState) (req : FeedbackReq) :
    ServerState × FbResponse :=
  match req.price, req.impression with
  | some price, some impression =>
    if req.id = "" then (st, .badRequest "Missing fields: id")
    else
      match alookup req.id st.request_store with
      | none => (st, .ack false)
      | some state =>
        let store1 := updateEntry st.request_store req.id
          fun e => { e with impressions := e.impressions + 1 }
        match alookup state.context_hash st.spaces_dict with
        | none => ({ st with request_store := store1 }, .raised)
        | some sp =>
          let buckets_indices := sp.levels.map fun lvl => lvl.sample_buckets price
          let r := sp.update_feedback buckets_indices impression
          let spaces1 := updateEntry st.spaces_dict state.context_hash
            fun _ => r.1
          if r.2 then
            ({ st with request_store := store1, spaces_dict := spaces1 },
             .raised)
          else
            ({ st with request_store := store1, spaces_dict := spaces1 },
             .ack true)
  | _, _ => (st, .badRequest "Missing fields")

/-- Lock events, used to model how `space_logic.py` uses the per-Space
`threading.Lock` around mutations. -/
inductive LockEv
  | acquire
  | release
  | mutation (tag : String)
deriving Repr, DecidableEq

/-- Whether every mutation event happens while the lock is held, tracking
the current hold depth. -/
def guardedFrom : ℕ → List LockEv → Bool
  | _, [] => true
  | d, .acquire :: es => guardedFrom (d + 1) es
  | d, .release :: es => guardedFrom (d - 1) es
  | 0, .mutation _ :: _ => false
  | d + 1, .mutation _ :: es => guardedFrom (d + 1) es

/-- A trace is guarded when every mutation in it happens under the lock. -/
def guarded (es : List LockEv) : Bool := guardedFrom 0 es

/-- The mutation events of one loop iteration of `Space.update_feedback`:
nothing for a skipped -1 index, else the bucket update and the sample
append. -/
def feedEvents (idx : ℤ) : List LockEv :=
  if idx = -1 then []
  else [.mutation "bucket.update", .mutation "learning_data.append"]

/-- The lock/mutation trace of `Space.update_feedback`: the Python method
wraps its whole loop in `with self.lock`. -/
def update_feedback_trace (buckets_indices : List ℤ) : List LockEv :=
  [.acquire] ++
    (buckets_indices.foldr (fun idx acc => feedEvents idx ++ acc) []) ++
    [.release]

/-- The mutation events of one loop iteration of `Space.learn`: nothing
for a level below 10 samples, else the winning-curve rewrite and the
sample-list clear. -/
def learnEvents (data : List Sample) : List LockEv :=
  if data.length < 10 then []
  else [.mutation "winning_curve.write", .mutation "learning_data.clear"]

/-- The lock/mutation trace of `Space.learn`: the Python method contains
no `with self.lock` at all, so the trace has no acquire/release events. -/
def learn_trace (sp : Space) : List LockEv :=
  sp.learning_data.foldr (fun data acc => learnEvents data ++ acc) []

/-- A one-bucket example level used in concrete evaluations. -/
def exBucket : Bucket := Bucket.init 0 1 10 (1/2)

/-- Example level over `exBucket`. -/
def exLevel : Level := Level.ofBuckets [exBucket]

/-- Ten identical calibration samples whose price field is `tag`. -/
def exSamples (tag : ℚ) : List Sample :=
  List.replicate 10 { pr := 1/2, price := tag, impression := 1 }

/-- Example space with two levels, each holding 10 accumulated samples. -/
def exSpace : Space :=
  { context_hash := "ctx", levels := [exLevel, exLevel],
    learning_data := [exSamples 0, exSamples 1] }

/-- Example space with one level holding 10 samples on which `selTrain`
succeeds. -/
def exSpaceOK : Space :=
  { context_hash := "ctx2", levels := [exLevel],
    learning_data := [exSamples 1] }

/-- A concrete valid configuration for witnesses. -/
def exCfg : Config :=
  { level_size := 1, bucket_size := 5, buffer_size := 10, discount := 1/2 }

/-- A concrete draw of 6 exponential samples for witnesses. -/
def exDraw : List ℚ := [0, 3, 1, 4, 2, 5]

/-- A concrete server state with one known context for witnesses. -/
def exState : ServerState :=
  { spaces_dict := [("ctx", exSpace)], request_store := [] }

/-- A concrete well-formed optimize request for witnesses. -/
def exReq : OptimizeReq :=
  { id := "r1", price := some 10, floor_price := some 9, ctx_hash := "ctx",
    data_center := "", ad_format := "", pub_id := "", bundle_id := "",
    tag_id := "", cc := "" }

/-- A concrete well-formed feedback request for witnesses. -/
def exFbReq : FeedbackReq :=
  { id := "nobody", price := some 1, impression := some true }

/-- A training function that raises exactly on sample lists containing a
zero price and otherwise returns the constant-one model. -/
def selTrain : TrainFn :=
  fun data => if data.any (fun s => decide (s.price = 0)) then none
              else some fun _ _ => 1

/-- A training function that always raises. -/
def failTrain : TrainFn := fun _ => none

/-- A list of buckets forms a contiguous chain from `lo` to `hi`: each
bucket starts where its predecessor ended, with nonempty (possibly
degenerate) intervals. -/
def BChain : ℚ → ℚ → List Bucket → Prop
  | lo, hi, [] => lo = hi
  | lo, hi, b :: bs => b.lhs = lo ∧ lo ≤ b.rhs ∧ BChain b.rhs hi bs


theorem count_true_add_count_false (l : List Bool) :
    l.count true + l.count false = l.length := by
  induction l with
  | nil => simp
  | cons a l ih =>
    cases a <;> simp [List.count_cons] <;> omega

theorem smooth_bound (d p a c : ℚ) (hd0 : 0 ≤ d) (hd1 : d ≤ 1)
    (hp0 : 0 ≤ p) (hp1 : p ≤ 1) (ha : 1 ≤ a) (hc : 1 ≤ c) :
    0 ≤ d * p + (1 - d) * (a / (a + c)) ∧
      d * p + (1 - d) * (a / (a + c)) ≤ 1 := by
  have hsum : (0 : ℚ) < a + c := by linarith
  have hq0 : 0 ≤ a / (a + c) := div_nonneg (by linarith) hsum.le
  have hq1 : a / (a + c) ≤ 1 := by
    rw [div_le_one hsum]; linarith
  constructor
  · nlinarith
  · nlinarith

theorem Bucket.update_eq_room (b : Bucket) (o : Bool)
    (hfull : ¬ b.size ≤ b.buffer.length) :
    b.update o = some
      { lhs := b.lhs, rhs := b.rhs,
        alpha := if o then b.alpha + 1 else b.alpha,
        beta := if o then b.beta else b.beta + 1,
        buffer := o :: b.buffer, size := b.size, discount := b.discount,
        pr := b.discount * b.pr + (1 - b.discount) *
          ((if o then b.alpha + 1 else b.alpha) /
            ((if o then b.alpha + 1 else b.alpha) +
             (if o then b.beta else b.beta + 1))),
        update_qty := b.update_qty + 1 } := by
  simp only [Bucket.update, hfull, if_false, Option.map_some]
  rfl

theorem Bucket.update_eq_full (b : Bucket) (o : Bool) (l : List Bool)
    (a : Bool) (hconc : b.buffer = l ++ [a])
    (hfull : b.size ≤ b.buffer.length) :
    b.update o = some
      { lhs := b.lhs, rhs := b.rhs,
        alpha := if o then (if a then b.alpha - 1 else b.alpha) + 1
                 else (if a then b.alpha - 1 else b.alpha),
        beta := if o then (if a then b.beta else b.beta - 1)
                else (if a then b.beta else b.beta - 1) + 1,
        buffer := o :: l, size := b.size, discount := b.discount,
        pr := b.discount * b.pr + (1 - b.discount) *
          ((if o then (if a then b.alpha - 1 else b.alpha) + 1
            else (if a then b.alpha - 1 else b.alpha)) /
           ((if o then (if a then b.alpha - 1 else b.alpha) + 1
             else (if a then b.alpha - 1 else b.alpha)) +
            (if o then (if a then b.beta else b.beta - 1)
             else (if a then b.beta else b.beta - 1) + 1))),
        update_qty := b.update_qty + 1 } := by
  rw [hconc] at hfull
  simp only [List.length_append, List.length_cons, List.length_nil] at hfull
  simp only [Bucket.update, hconc, List.getLast?_concat, List.dropLast_concat,
    List.length_append, List.length_cons, List.length_nil]
  rw [if_pos hfull]
  rfl

theorem Bucket.update_inv (b : Bucket) (o : Bool) (hsz : 1 ≤ b.size)
    (h : b.Inv) :
    ∃ b1, b.update o = some b1 ∧ b1.Inv ∧ b1.size = b.size ∧
      b1.discount = b.discount ∧ b1.update_qty = b.update_qty + 1 ∧
      (0 ≤ b.discount → b.discount ≤ 1 → 0 ≤ b.pr → b.pr ≤ 1 →
        0 ≤ b1.pr ∧ b1.pr ≤ 1) := by
  obtain ⟨ha, hb, hlen⟩ := h
  by_cases hfull : b.size ≤ b.buffer.length
  · -- the window is at capacity: an element is evicted first
    have hne : b.buffer ≠ [] := by
      intro hnil
      rw [hnil] at hfull
      simp at hfull
      omega
    obtain ⟨l, a, hconc⟩ := b.buffer.eq_nil_or_concat.resolve_left hne
    rw [List.concat_eq_append] at hconc
    have hupd := b.update_eq_full o l a hconc hfull
    rw [hconc] at ha hb hlen hfull
    have halpha : (if o then (if a then b.alpha - 1 else b.alpha) + 1
        else (if a then b.alpha - 1 else b.alpha)) =
        1 + ((o :: l).count true : ℚ) := by
      cases o <;> cases a <;>
        simp [List.count_cons, List.count_append] at ha ⊢ <;>
        push_cast at ha ⊢ <;> linarith
    have hbeta : (if o then (if a then b.beta else b.beta - 1)
        else (if a then b.beta else b.beta - 1) + 1) =
        1 + ((o :: l).count false : ℚ) := by
      cases o <;> cases a <;>
        simp [List.count_cons, List.count_append] at hb ⊢ <;>
        push_cast at hb ⊢ <;> linarith
    refine ⟨_, hupd, ⟨halpha, hbeta, ?_⟩, rfl, rfl, rfl, ?_⟩
    · simp only [List.length_cons, List.length_append, List.length_nil]
        at hlen hfull ⊢
      omega
    · intro hd0 hd1 hp0 hp1
      have hca : (1 : ℚ) ≤ 1 + ((o :: l).count true : ℚ) := by
        have h0 : (0 : ℚ) ≤ ((o :: l).count true : ℚ) := Nat.cast_nonneg _
        linarith
      have hcb : (1 : ℚ) ≤ 1 + ((o :: l).count false : ℚ) := by
        have h0 : (0 : ℚ) ≤ ((o :: l).count false : ℚ) := Nat.cast_nonneg _
        linarith
      have := smooth_bound b.discount b.pr
        (1 + ((o :: l).count true : ℚ)) (1 + ((o :: l).count false : ℚ))
        hd0 hd1 hp0 hp1 hca hcb
      simpa only [halpha, hbeta] using this
  · -- the window still has room: no eviction
    have hupd := b.update_eq_room o hfull
    have halpha : (if o then b.alpha + 1 else b.alpha) =
        1 + ((o :: b.buffer).count true : ℚ) := by
      cases o <;> simp [List.count_cons, ha] <;> push_cast <;> ring
    have hbeta : (if o then b.beta else b.beta + 1) =
        1 + ((o :: b.buffer).count false : ℚ) := by
      cases o <;> simp [List.count_cons, hb] <;> push_cast <;> ring
    refine ⟨_, hupd, ⟨halpha, hbeta, ?_⟩, rfl, rfl, rfl, ?_⟩
    · simp only [List.length_cons]
      omega
    · intro hd0 hd1 hp0 hp1
      have hca : (1 : ℚ) ≤ 1 + ((o :: b.buffer).count true : ℚ) := by
        have h0 : (0 : ℚ) ≤ ((o :: b.buffer).count true : ℚ) := Nat.cast_nonneg _
        linarith
      have hcb : (1 : ℚ) ≤ 1 + ((o :: b.buffer).count false : ℚ) := by
        have h0 : (0 : ℚ) ≤ ((o :: b.buffer).count false : ℚ) := Nat.cast_nonneg _
        linarith
      have := smooth_bound b.discount b.pr
        (1 + ((o :: b.buffer).count true : ℚ))
        (1 + ((o :: b.buffer).count false : ℚ)) hd0 hd1 hp0 hp1 hca hcb
      simpa only [halpha, hbeta] using this



theorem alookup_append_self (k : String) (s : List (String × α)) (v : α)
    (h : alookup k s = none) : alookup k (s ++ [(k, v)]) = some v := by
  induction s with
  | nil => simp [alookup]
  | cons p rest ih =>
    obtain ⟨k1, v1⟩ := p
    by_cases hk : k1 = k
    · subst hk
      simp [alookup] at h
    · simp only [List.cons_append, alookup, hk, if_false] at h ⊢
      exact ih h

theorem alookup_updateEntry_self (k : String) (s : List (String × α))
    (f : α → α) :
    alookup k (updateEntry s k f) = (alookup k s).map f := by
  induction s with
  | nil => simp [alookup, updateEntry]
  | cons p rest ih =>
    obtain ⟨k1, v1⟩ := p
    by_cases hk : k1 = k
    · subst hk
      rw [show updateEntry ((k1, v1) :: rest) k1 f =
          (k1, f v1) :: updateEntry rest k1 f from by simp [updateEntry]]
      simp [alookup]
    · rw [show updateEntry ((k1, v1) :: rest) k f =
          (k1, v1) :: updateEntry rest k f from by simp [updateEntry, hk]]
      simp only [alookup, hk, if_false]
      exact ih

theorem Bucket.runUpdates_inv :
    ∀ (os : List Bool) (b : Bucket), 1 ≤ b.size → b.Inv →
    ∃ b1, b.runUpdates os = some b1 ∧ b1.Inv ∧ b1.size = b.size ∧
      b1.discount = b.discount ∧
      b1.update_qty = b.update_qty + os.length ∧
      (0 ≤ b.discount → b.discount ≤ 1 → 0 ≤ b.pr → b.pr ≤ 1 →
        0 ≤ b1.pr ∧ b1.pr ≤ 1) := by
  intro os
  induction os with
  | nil =>
    intro b hsz hinv
    exact ⟨b, rfl, hinv, rfl, rfl, by simp, fun _ _ h1 h2 => ⟨h1, h2⟩⟩
  | cons o os ih =>
    intro b hsz hinv
    obtain ⟨b1, hstep, hinv1, hsz1, hd1, hq1, hpr1⟩ := b.update_inv o hsz hinv
    obtain ⟨b2, hrun, hinv2, hsz2, hd2, hq2, hpr2⟩ :=
      ih b1 (hsz1 ▸ hsz) hinv1
    refine ⟨b2, ?_, hinv2, by rw [hsz2, hsz1], by rw [hd2, hd1], ?_, ?_⟩
    · simp [Bucket.runUpdates, hstep, hrun]
    · rw [hq2, hq1]
      simp
      omega
    · intro hdd0 hdd1 hpp0 hpp1
      obtain ⟨h1, h2⟩ := hpr1 hdd0 hdd1 hpp0 hpp1
      exact hpr2 (hd1 ▸ hdd0) (hd1 ▸ hdd1) h1 h2

/-- C2: for every Bucket and every finite sequence of `Bucket.update`
calls, after each call `winCount + lossCount = len(window) + 2` where
`len(window) = min(sampleCount, windowCapacity)`, hence also
`len(window) ≤ windowCapacity`, with `sampleCount` the number of updates
so far.  Quantifying over the outcome list covers the state after each
call of any longer sequence. -/
theorem C2_window_pseudocount_invariant (lhs rhs : ℚ) (size : ℕ)
    (discount : ℚ) (hsz : 1 ≤ size) (os : List Bool) :
    ∃ b, (Bucket.init lhs rhs size discount).runUpdates os = some b ∧
      b.alpha + b.beta = (b.buffer.length : ℚ) + 2 ∧
      b.buffer.length = min b.update_qty b.size ∧
      b.buffer.length ≤ b.size ∧
      b.update_qty = os.length := by
  have hinv : (Bucket.init lhs rhs size discount).Inv := by
    refine ⟨by simp [Bucket.init], by simp [Bucket.init], ?_⟩
    simp [Bucket.init]
  obtain ⟨b1, hrun, ⟨ha, hb, hlen⟩, hszr, _, hq, _⟩ :=
    Bucket.runUpdates_inv os (Bucket.init lhs rhs size discount)
      (by simpa [Bucket.init] using hsz) hinv
  refine ⟨b1, hrun, ?_, hlen, ?_, ?_⟩
  · rw [ha, hb]
    have hcount := count_true_add_count_false b1.buffer
    push_cast [← hcount]
    ring
  · rw [hlen]
    exact min_le_right _ _
  · simpa [Bucket.init] using hq

/-- Witness for C2 at a concrete bucket and outcome sequence. -/
theorem C2_window_pseudocount_invariant_witness :
    ∃ b, (Bucket.init 0 1 10 (1/2)).runUpdates [true, false, true] = some b ∧
      b.alpha + b.beta = (b.buffer.length : ℚ) + 2 ∧
      b.buffer.length = min b.update_qty b.size ∧
      b.buffer.length ≤ b.size ∧
      b.update_qty = [true, false, true].length :=
  C2_window_pseudocount_invariant 0 1 10 (1/2) (by norm_num)
    [true, false, true]

/-- C7: for every Bucket, every finite outcome sequence and every discount
in `[0,1]`, the smoothed probability `pr` stays in `[0,1]` after every
update, starting from its initial value 0.5. -/
theorem C7_smoothed_probability_in_unit_interval (lhs rhs : ℚ) (size : ℕ)
    (discount : ℚ) (hsz : 1 ≤ size) (hd0 : 0 ≤ discount)
    (hd1 : discount ≤ 1) (os : List Bool) :
    ∃ b, (Bucket.init lhs rhs size discount).runUpdates os = some b ∧
      0 ≤ b.pr ∧ b.pr ≤ 1 := by
  have hinv : (Bucket.init lhs rhs size discount).Inv := by
    refine ⟨by simp [Bucket.init], by simp [Bucket.init], ?_⟩
    simp [Bucket.init]
  obtain ⟨b1, hrun, _, _, _, _, hpr⟩ :=
    Bucket.runUpdates_inv os (Bucket.init lhs rhs size discount)
      (by simpa [Bucket.init] using hsz) hinv
  refine ⟨b1, hrun, ?_⟩
  exact hpr (by simpa [Bucket.init] using hd0)
    (by simpa [Bucket.init] using hd1)
    (by norm_num [Bucket.init]) (by norm_num [Bucket.init])

/-- Witness for C7 at a concrete bucket, discount and outcome sequence. -/
theorem C7_smoothed_probability_in_unit_interval_witness :
    ∃ b, (Bucket.init 0 1 10 (1/2)).runUpdates
        [true, true, false, true] = some b ∧ 0 ≤ b.pr ∧ b.pr ≤ 1 :=
  C7_smoothed_probability_in_unit_interval 0 1 10 (1/2) (by norm_num)
    (by norm_num) (by norm_num) [true, true, false, true]

theorem learnLevels_get_small (train : TrainFn) :
    ∀ (ps : List (Level × List Sample)) (i : ℕ) (lvl : Level)
      (data : List Sample), ps[i]? = some (lvl, data) → data.length < 10 →
      (learnLevels train ps).1[i]? = some (lvl, data) := by
  intro ps
  induction ps with
  | nil => intro i lvl data h _; simp at h
  | cons hd rest ih =>
    obtain ⟨l0, d0⟩ := hd
    intro i lvl data h hsmall
    cases i with
    | zero =>
      simp only [List.getElem?_cons_zero, Option.some_inj] at h
      injection h with h1 h2
      subst h1
      subst h2
      have hLL : learnLevel train l0 d0 = some (l0, d0) := by
        simp [learnLevel, hsmall]
      simp [learnLevels, hLL]
    | succ n =>
      simp only [List.getElem?_cons_succ] at h
      cases hres : learnLevel train l0 d0 with
      | none =>
        simp only [learnLevels, hres, List.getElem?_cons_succ]
        exact h
      | some res =>
        simp only [learnLevels, hres, List.getElem?_cons_succ]
        exact ih n lvl data h hsmall

/-- C8: a recalibration pass over a Space leaves every Level with fewer
than 10 accumulated samples untouched: its buckets and winning curve and
its sample list are all unchanged, whether or not training fails
elsewhere in the pass. -/
theorem C8_recalibration_below_threshold_noop (train : TrainFn)
    (sp : Space) (i : ℕ) (lvl : Level) (data : List Sample)
    (hl : sp.levels[i]? = some lvl) (hd : sp.learning_data[i]? = some data)
    (hsmall : data.length < 10) :
    (sp.learn train).1.levels[i]? = some lvl ∧
      (sp.learn train).1.learning_data[i]? = some data := by
  have hzip : (sp.levels.zip sp.learning_data)[i]? = some (lvl, data) :=
    List.getElem?_zip_eq_some.mpr ⟨hl, hd⟩
  have hres := learnLevels_get_small train (sp.levels.zip sp.learning_data)
    i lvl data hzip hsmall
  constructor
  · simp [Space.learn, List.getElem?_map, hres]
  · simp [Space.learn, List.getElem?_map, hres]

/-- Witness for C8 on a concrete space whose single level has an empty
sample list. -/
theorem C8_recalibration_below_threshold_noop_witness :
    ((Space.init "c" [exLevel]).learn failTrain).1.levels[0]? =
        some exLevel ∧
      ((Space.init "c" [exLevel]).learn failTrain).1.learning_data[0]? =
        some [] :=
  C8_recalibration_below_threshold_noop failTrain (Space.init "c" [exLevel])
    0 exLevel [] rfl rfl (by norm_num)

/-- C1 counterexample: in `exSpace` both levels hold 10 accumulated
samples, and `selTrain` fails on level 0 but would succeed on level 1.
The pass leaves both sample lists uncleared (so a failed training does
not clear the list) and leaves level 1 entirely unprocessed (so a failure
on one level does prevent the remaining levels of the same space from
recalibrating in that cycle). -/
theorem C1_counterexample :
    exSpace.learning_data.map List.length = [10, 10] ∧
      (exSpace.learn selTrain).1 = exSpace ∧
      (exSpace.learn selTrain).2 = true ∧
      learnLevel selTrain exLevel (exSamples 1) =
        some ({ exLevel with winning_curve := [1] }, []) :=
  ⟨by decide, by rfl, by decide, by rfl⟩

/-- C1 amended: a recalibration pass clears a Level's sample list exactly
when it reaches that Level and training succeeds there (first conjunct:
if no exception escaped `learn`, every Level with at least 10 samples has
its list cleared); a training failure keeps the failing Level's samples
and leaves the remaining Levels of the same Space unprocessed in that
cycle (second conjunct); the failure is caught per Space by the
background loop, so each Space of a cycle is recalibrated independently
of failures in the others (third conjunct). -/
theorem C1_amended_recalibration_clearing :
    (∀ (train : TrainFn) (sp : Space) (i : ℕ) (lvl : Level)
        (data : List Sample), sp.levels[i]? = some lvl →
        sp.learning_data[i]? = some data → 10 ≤ data.length →
        (sp.learn train).2 = false →
        (sp.learn train).1.learning_data[i]? = some []) ∧
      (∀ (train : TrainFn) (lvl : Level) (data : List Sample)
        (rest : List (Level × List Sample)), 10 ≤ data.length →
        train data = none →
        learnLevels train ((lvl, data) :: rest) = ((lvl, data) :: rest, true)) ∧
      (∀ (train : TrainFn) (sps : List Space),
        background_pass train sps = sps.map fun sp => (sp.learn train).1) := by
  refine ⟨?_, ?_, fun _ _ => rfl⟩
  · have key : ∀ (train : TrainFn) (ps : List (Level × List Sample)) (i : ℕ)
        (lvl : Level) (data : List Sample), ps[i]? = some (lvl, data) →
        10 ≤ data.length → (learnLevels train ps).2 = false →
        ((learnLevels train ps).1[i]?.map Prod.snd) = some [] := by
      intro train ps
      induction ps with
      | nil => intro i lvl data h _ _; simp at h
      | cons hd rest ih =>
        obtain ⟨l0, d0⟩ := hd
        intro i lvl data h hbig hok
        cases hres : learnLevel train l0 d0 with
        | none => simp [learnLevels, hres] at hok
        | some res =>
          cases i with
          | zero =>
            simp only [List.getElem?_cons_zero, Option.some_inj] at h
            injection h with h1 h2
            subst h1
            subst h2
            have hns : ¬ d0.length < 10 := by omega
            cases htr : train d0 with
            | none => simp [learnLevel, hns, htr] at hres
            | some model =>
              simp only [learnLevel, hns, if_false, htr,
                Option.some_inj] at hres
              simp [learnLevels, learnLevel, hns, htr, ← hres]
          | succ n =>
            simp only [List.getElem?_cons_succ] at h
            have hok2 : (learnLevels train rest).2 = false := by
              simp only [learnLevels, hres] at hok
              exact hok
            simp only [learnLevels, hres, List.getElem?_cons_succ]
            exact ih n lvl data h hbig hok2
    intro train sp i lvl data hl hd hbig hok
    have hzip : (sp.levels.zip sp.learning_data)[i]? = some (lvl, data) :=
      List.getElem?_zip_eq_some.mpr ⟨hl, hd⟩
    have hres := key train (sp.levels.zip sp.learning_data) i lvl data hzip
      hbig hok
    simpa [Space.learn, List.getElem?_map] using hres
  · intro train lvl data rest hbig hfail
    have hns : ¬ data.length < 10 := by omega
    simp [learnLevels, learnLevel, hns, hfail]

/-- Witness for the amended C1 at concrete inputs: a successful pass over
`exSpaceOK` clears its level's 10 samples, and a failing training on a
level with 10 samples aborts the pass with everything unchanged. -/
theorem C1_amended_recalibration_clearing_witness :
    ((exSpaceOK.learn selTrain).1.learning_data[0]? = some []) ∧
      learnLevels failTrain [(exLevel, exSamples 0)] =
        ([(exLevel, exSamples 0)], true) :=
  ⟨C1_amended_recalibration_clearing.1 selTrain exSpaceOK 0 exLevel
      (exSamples 1) rfl rfl (by simp [exSamples]) (by rfl),
    C1_amended_recalibration_clearing.2.1 failTrain exLevel (exSamples 0) []
      (by simp [exSamples]) rfl⟩

theorem BChain.le : ∀ (bs : List Bucket) (lo hi : ℚ),
    BChain lo hi bs → lo ≤ hi := by
  intro bs
  induction bs with
  | nil => intro lo hi h; exact le_of_eq h
  | cons b rest ih =>
    intro lo hi h
    obtain ⟨_, h2, h3⟩ := h
    exact le_trans h2 (ih _ _ h3)

theorem BChain.lhs_ge : ∀ (bs : List Bucket) (lo hi : ℚ),
    BChain lo hi bs → ∀ (i : ℕ) (b : Bucket), bs[i]? = some b →
    lo ≤ b.lhs := by
  intro bs
  induction bs with
  | nil => intro lo hi _ i b h; simp at h
  | cons b0 rest ih =>
    intro lo hi h i b hget
    obtain ⟨h1, h2, h3⟩ := h
    cases i with
    | zero =>
      simp only [List.getElem?_cons_zero, Option.some_inj] at hget
      rw [← hget, h1]
    | succ n =>
      simp only [List.getElem?_cons_succ] at hget
      exact le_trans h2 (ih _ _ h3 n b hget)

theorem BChain.contig : ∀ (bs : List Bucket) (lo hi : ℚ),
    BChain lo hi bs → ∀ (i : ℕ) (b1 b2 : Bucket), bs[i]? = some b1 →
    bs[i+1]? = some b2 → b1.rhs = b2.lhs := by
  intro bs
  induction bs with
  | nil => intro lo hi _ i b1 b2 h _; simp at h
  | cons b0 rest ih =>
    intro lo hi h i b1 b2 h1 h2
    obtain ⟨hh1, hh2, hh3⟩ := h
    cases i with
    | zero =>
      simp only [List.getElem?_cons_zero, Option.some_inj] at h1
      simp only [List.getElem?_cons_succ] at h2
      subst h1
      exact (BChain.lhs_ge rest _ _ hh3 0 b2 h2).antisymm
        (by
          cases rest with
          | nil => simp at h2
          | cons c cs =>
            obtain ⟨hc1, _, _⟩ := hh3
            simp only [List.getElem?_cons_zero, Option.some_inj] at h2
            rw [← h2, hc1])
    | succ n =>
      simp only [List.getElem?_cons_succ] at h1 h2
      exact ih _ _ hh3 n b1 b2 h1 h2

theorem BChain.ordered : ∀ (bs : List Bucket) (lo hi : ℚ),
    BChain lo hi bs → ∀ (i j : ℕ) (b1 b2 : Bucket), i < j →
    bs[i]? = some b1 → bs[j]? = some b2 → b1.rhs ≤ b2.lhs := by
  intro bs
  induction bs with
  | nil => intro lo hi _ i j b1 b2 _ h _; simp at h
  | cons b0 rest ih =>
    intro lo hi h i j b1 b2 hij h1 h2
    obtain ⟨hh1, hh2, hh3⟩ := h
    cases i with
    | zero =>
      simp only [List.getElem?_cons_zero, Option.some_inj] at h1
      subst h1
      obtain ⟨n, rfl⟩ : ∃ n, j = n + 1 := ⟨j - 1, by omega⟩
      simp only [List.getElem?_cons_succ] at h2
      exact BChain.lhs_ge rest _ _ hh3 n b2 h2
    | succ m =>
      obtain ⟨n, rfl⟩ : ∃ n, j = n + 1 := ⟨j - 1, by omega⟩
      simp only [List.getElem?_cons_succ] at h1 h2
      exact ih _ _ hh3 m n b1 b2 (by omega) h1 h2

theorem BChain.last_rhs : ∀ (bs : List Bucket) (lo hi : ℚ) (b : Bucket),
    BChain lo hi bs → bs.getLast? = some b → b.rhs = hi := by
  intro bs
  induction bs with
  | nil => intro lo hi b _ h; simp at h
  | cons b0 rest ih =>
    intro lo hi b h hlast
    obtain ⟨hh1, hh2, hh3⟩ := h
    cases rest with
    | nil =>
      simp only [List.getLast?_singleton, Option.some_inj] at hlast
      rw [← hlast]
      exact hh3
    | cons c cs =>
      rw [List.getLast?_cons_cons] at hlast
      exact ih _ _ b hh3 hlast

theorem locateAux_cons_of_not_mem (p : ℚ) (b : Bucket) (bs : List Bucket)
    (i : ℕ) (h : ¬ (b.lhs ≤ p ∧ p ≤ b.rhs)) :
    locateAux p (b :: bs) i = locateAux p bs (i + 1) := by
  simp only [locateAux]
  rw [if_neg h]

theorem BChain.locate_in : ∀ (bs : List Bucket) (lo hi : ℚ),
    BChain lo hi bs → bs ≠ [] → ∀ p : ℚ, lo ≤ p → p ≤ hi →
    ∀ i : ℕ, ∃ j : ℕ, locateAux p bs i = (j : ℤ) ∧ i ≤ j ∧
      j < i + bs.length := by
  intro bs
  induction bs with
  | nil => intro lo hi _ hne; exact absurd rfl hne
  | cons b0 rest ih =>
    intro lo hi h _ p hlo hhi i
    obtain ⟨hh1, hh2, hh3⟩ := h
    by_cases hin : p ≤ b0.rhs
    · refine ⟨i, ?_, le_refl i, by simp⟩
      simp [locateAux, hh1 ▸ hlo, hin]
    · push_neg at hin
      cases rest with
      | nil =>
        exact absurd (le_trans hhi (le_of_eq hh3.symm)) (not_le.mpr hin)
      | cons c cs =>
        obtain ⟨j, hj1, hj2, hj3⟩ := ih _ _ hh3 (by simp) p hin.le hhi (i + 1)
        refine ⟨j, ?_, by omega, ?_⟩
        · rw [locateAux_cons_of_not_mem p b0 (c :: cs) i
            (fun hcon => absurd hcon.2 (not_le.mpr hin))]
          exact hj1
        · simp only [List.length_cons] at hj3 ⊢
          omega

theorem BChain.locate_out : ∀ (bs : List Bucket) (lo hi : ℚ),
    BChain lo hi bs → ∀ p : ℚ, p < lo ∨ hi < p →
    ∀ i : ℕ, locateAux p bs i = -1 := by
  intro bs
  induction bs with
  | nil => intro lo hi _ p _ i; rfl
  | cons b0 rest ih =>
    intro lo hi h p hout i
    obtain ⟨hh1, hh2, hh3⟩ := h
    have hnotin : ¬ (b0.lhs ≤ p ∧ p ≤ b0.rhs) := by
      rcases hout with hlt | hgt
      · intro hcon
        rw [hh1] at hcon
        exact absurd hcon.1 (not_le.mpr hlt)
      · intro hcon
        exact absurd hcon.2 (not_le.mpr (lt_of_le_of_lt
          (BChain.le rest _ _ hh3) hgt))
    simp only [locateAux, hnotin, if_false]
    apply ih _ _ hh3
    rcases hout with hlt | hgt
    · exact Or.inl (lt_of_lt_of_le hlt hh2)
    · exact Or.inr hgt

theorem bchain_adjBuckets (size : ℕ) (disc : ℚ) :
    ∀ (l : List ℚ) (lo hi : ℚ), List.Pairwise (· ≤ ·) l →
    l.head? = some lo → l.getLast? = some hi →
    BChain lo hi (adjBuckets size disc l) := by
  intro l
  induction l with
  | nil => intro lo hi _ hhd _; simp at hhd
  | cons x xs ih =>
    intro lo hi hpair hhd hlast
    simp only [List.head?_cons, Option.some_inj] at hhd
    subst hhd
    cases xs with
    | nil =>
      simp only [List.getLast?_singleton, Option.some_inj] at hlast
      simpa [adjBuckets, BChain] using hlast
    | cons y ys =>
      rw [List.getLast?_cons_cons] at hlast
      have hxy : x ≤ y := (List.pairwise_cons.mp hpair).1 y (by simp)
      refine ⟨rfl, ?_, ?_⟩
      · simpa [adjBuckets, Bucket.init] using hxy
      · simpa [adjBuckets, Bucket.init] using
          ih y hi (List.pairwise_cons.mp hpair).2 rfl hlast

theorem generate_bucket_bounds_spec (samples : List ℚ)
    (min_price max_price : ℚ) (hne : samples ≠ [])
    (hd : (samples.insertionSort (· ≤ ·)).head?.getD 0 <
      (samples.insertionSort (· ≤ ·)).getLast?.getD 0)
    (hpr : min_price ≤ max_price) :
    List.Pairwise (· ≤ ·)
        (generate_bucket_bounds samples min_price max_price) ∧
      (generate_bucket_bounds samples min_price max_price).head? =
        some min_price ∧
      (generate_bucket_bounds samples min_price max_price).getLast? =
        some max_price ∧
      (generate_bucket_bounds samples min_price max_price).length =
        samples.length := by
  have hsort : List.Pairwise (· ≤ ·) (samples.insertionSort (· ≤ ·)) :=
    List.sorted_insertionSort _ samples
  have hlen : (samples.insertionSort (· ≤ ·)).length = samples.length :=
    (List.perm_insertionSort _ samples).length_eq
  have hsne : samples.insertionSort (· ≤ ·) ≠ [] := by
    intro h0
    rw [h0] at hlen
    exact hne (List.length_eq_zero.mp hlen.symm)
  obtain ⟨mi, hmi⟩ : ∃ mi, (samples.insertionSort (· ≤ ·)).head? = some mi := by
    cases hh : (samples.insertionSort (· ≤ ·)).head? with
    | none => exact absurd (List.head?_eq_none_iff.mp hh) hsne
    | some x => exact ⟨x, rfl⟩
  obtain ⟨ma, hma⟩ :
      ∃ ma, (samples.insertionSort (· ≤ ·)).getLast? = some ma := by
    cases hh : (samples.insertionSort (· ≤ ·)).getLast? with
    | none => exact absurd (List.getLast?_eq_none_iff.mp hh) hsne
    | some x => exact ⟨x, rfl⟩
  rw [hmi, hma] at hd
  simp only [Option.getD_some] at hd
  have hden : (0 : ℚ) < ma - mi := by linarith
  have hgen : generate_bucket_bounds samples min_price max_price =
      (samples.insertionSort (· ≤ ·)).map
        (fun v => ((v - mi) / (ma - mi)) * (max_price - min_price) +
          min_price) := by
    simp only [generate_bucket_bounds, hmi, hma, Option.getD_some]
  rw [hgen]
  refine ⟨?_, ?_, ?_, ?_⟩
  · refine hsort.map _ fun a c hac => ?_
    have h1 : (a - mi) / (ma - mi) ≤ (c - mi) / (ma - mi) :=
      (div_le_div_iff_of_pos_right hden).mpr (by linarith)
    have h2 := mul_le_mul_of_nonneg_right h1
      (by linarith : (0 : ℚ) ≤ max_price - min_price)
    linarith
  · rw [List.head?_map, hmi]
    simp
  · rw [List.getLast?_map, hma]
    have hfma : ((ma - mi) / (ma - mi)) * (max_price - min_price) +
        min_price = max_price := by
      rw [div_self (ne_of_gt hden)]
      ring
    simp [hfma]
  · rw [List.length_map, hlen]

/-- C3: for every valid configuration (`bucketCount ≥ 5`) and every Level
produced by grid construction (any draw of `bucketCount + 1` exponential
samples, not all equal, here quantified as the `samples` parameter), the
buckets are contiguous (each bucket's upper bound is the next one's lower
bound), start at `minPrice`, end at `maxPrice`, are non-overlapping (an
earlier bucket ends no later than a later one starts), and
`Level.sample_buckets` returns a valid bucket index for every price in
`[minPrice, maxPrice]` and the sentinel -1 for every price outside. -/
theorem C3_grid_partition_and_locate (samples : List ℚ)
    (min_price max_price : ℚ) (cfg : Config) (hbk : 5 ≤ cfg.bucket_size)
    (hslen : samples.length = cfg.bucket_size + 1)
    (hd : (samples.insertionSort (· ≤ ·)).head?.getD 0 <
      (samples.insertionSort (· ≤ ·)).getLast?.getD 0)
    (hpr : min_price < max_price) :
    (∀ (i : ℕ) (b1 b2 : Bucket),
        (new_buckets samples min_price max_price cfg)[i]? = some b1 →
        (new_buckets samples min_price max_price cfg)[i + 1]? = some b2 →
        b1.rhs = b2.lhs) ∧
      (∃ b, (new_buckets samples min_price max_price cfg).head? = some b ∧
        b.lhs = min_price) ∧
      (∃ b, (new_buckets samples min_price max_price cfg).getLast? =
          some b ∧ b.rhs = max_price) ∧
      (∀ (i j : ℕ) (b1 b2 : Bucket), i < j →
        (new_buckets samples min_price max_price cfg)[i]? = some b1 →
        (new_buckets samples min_price max_price cfg)[j]? = some b2 →
        b1.rhs ≤ b2.lhs) ∧
      (∀ p : ℚ, min_price ≤ p → p ≤ max_price →
        0 ≤ (Level.ofBuckets
            (new_buckets samples min_price max_price cfg)).sample_buckets p ∧
          (Level.ofBuckets
            (new_buckets samples min_price max_price cfg)).sample_buckets p <
            ((new_buckets samples min_price max_price cfg).length : ℤ)) ∧
      (∀ p : ℚ, p < min_price ∨ max_price < p →
        (Level.ofBuckets
          (new_buckets samples min_price max_price cfg)).sample_buckets p =
          -1) := by
  have hne : samples ≠ [] := by
    intro h0
    rw [h0] at hslen
    simp at hslen
  obtain ⟨hpair, hhead, hlast, hblen⟩ :=
    generate_bucket_bounds_spec samples min_price max_price hne hd hpr.le
  have hchain : BChain min_price max_price
      (new_buckets samples min_price max_price cfg) :=
    bchain_adjBuckets cfg.buffer_size cfg.discount
      (generate_bucket_bounds samples min_price max_price)
      min_price max_price hpair hhead hlast
  have hbsl : (new_buckets samples min_price max_price cfg).length =
      cfg.bucket_size := by
    show (adjBuckets cfg.buffer_size cfg.discount
      (generate_bucket_bounds samples min_price max_price)).length = _
    simp only [adjBuckets, List.length_map, List.length_zip,
      List.length_tail, hblen, hslen]
    omega
  have hbne : new_buckets samples min_price max_price cfg ≠ [] := by
    intro h0
    rw [h0] at hbsl
    simp at hbsl
    omega
  refine ⟨fun i b1 b2 h1 h2 => BChain.contig _ _ _ hchain i b1 b2 h1 h2,
    ?_, ?_,
    fun i j b1 b2 hij h1 h2 => BChain.ordered _ _ _ hchain i j b1 b2 hij h1 h2,
    ?_, ?_⟩
  · cases hbs : new_buckets samples min_price max_price cfg with
    | nil => exact absurd hbs hbne
    | cons b rest =>
      rw [hbs] at hchain
      exact ⟨b, rfl, hchain.1⟩
  · cases hgl : (new_buckets samples min_price max_price cfg).getLast? with
    | none => exact absurd (List.getLast?_eq_none_iff.mp hgl) hbne
    | some b => exact ⟨b, rfl, BChain.last_rhs _ _ _ b hchain hgl⟩
  · intro p h1 h2
    obtain ⟨j, hj, hj0, hjlt⟩ :=
      BChain.locate_in _ _ _ hchain hbne p h1 h2 0
    constructor
    · show (0 : ℤ) ≤ locateAux p (new_buckets samples min_price max_price cfg) 0
      rw [hj]
      exact Int.natCast_nonneg j
    · show locateAux p (new_buckets samples min_price max_price cfg) 0 <
        ((new_buckets samples min_price max_price cfg).length : ℤ)
      rw [hj]
      exact_mod_cast by omega
  · intro p hout
    show locateAux p (new_buckets samples min_price max_price cfg) 0 = -1
    exact BChain.locate_out _ _ _ hchain p hout 0

/-- Witness for C3 on a concrete draw, price range and configuration. -/
theorem C3_grid_partition_and_locate_witness :
    0 ≤ (Level.ofBuckets (new_buckets exDraw 1 2 exCfg)).sample_buckets
        (3/2) ∧
      (Level.ofBuckets (new_buckets exDraw 1 2 exCfg)).sample_buckets (3/2) <
        ((new_buckets exDraw 1 2 exCfg).length : ℤ) ∧
      (Level.ofBuckets (new_buckets exDraw 1 2 exCfg)).sample_buckets 3 =
        -1 := by
  have h := C3_grid_partition_and_locate exDraw 1 2 exCfg (by decide)
    (by decide) (by decide) (by norm_num)
  exact ⟨(h.2.2.2.2.1 (3/2) (by norm_num) (by norm_num)).1,
    (h.2.2.2.2.1 (3/2) (by norm_num) (by norm_num)).2,
    h.2.2.2.2.2 3 (Or.inr (by norm_num))⟩

theorem optimize_happy (st : ServerState) (req : OptimizeReq)
    (price floor_price : ℚ) (sp : Space) (hp : req.price = some price)
    (hf : req.floor_price = some floor_price) (hid : req.id ≠ "")
    (hctx : alookup req.ctx_hash st.spaces_dict = some sp)
    (hge : floor_price ≤ price) :
    ∃ entry : ReqEntry,
      alookup req.id (optimize st req).1.request_store = some entry ∧
      (optimize st req).1.spaces_dict = st.spaces_dict ∧
      entry.attempts = (match alookup req.id st.request_store with
        | some e => e.attempts
        | none => 0) + 1 ∧
      entry.impressions = (match alookup req.id st.request_store with
        | some e => e.impressions
        | none => 0) ∧
      (optimize st req).2 =
        OptResponse.priced (max (price * (9/10)) floor_price)
          (if entry.attempts ≤ EXPLORATION_ROUNDS then BidStatus.explored
           else if 0 < entry.impressions then BidStatus.optimized
           else BidStatus.explored) := by
  cases hprev : alookup req.id st.request_store with
  | none =>
    have hlook : alookup req.id (updateEntry (st.request_store ++
        [(req.id, freshEntry req price floor_price)]) req.id
        (fun e => { e with attempts := e.attempts + 1 })) =
        some { freshEntry req price floor_price with attempts := 1 } := by
      rw [alookup_updateEntry_self, alookup_append_self req.id _ _ hprev]
      rfl
    simp only [optimize, hp, hf, if_neg hid, hctx, Option.isNone_some,
      Bool.false_eq_true, if_false, not_lt.mpr hge, hprev,
      Option.isNone_none, if_true, hlook]
    exact ⟨_, rfl, trivial, rfl, rfl, rfl⟩
  | some e =>
    have hlook : alookup req.id (updateEntry st.request_store req.id
        (fun e1 => { e1 with attempts := e1.attempts + 1 })) =
        some { e with attempts := e.attempts + 1 } := by
      rw [alookup_updateEntry_self, hprev]
      rfl
    simp only [optimize, hp, hf, if_neg hid, hctx, Option.isNone_some,
      Bool.false_eq_true, if_false, not_lt.mpr hge, hprev, hlook]
    exact ⟨_, rfl, trivial, rfl, rfl, rfl⟩

/-- C4: when the context is known and the price clears the floor, the
response status after the attempts increment is explored whenever
`attempts ≤ 3`, and for `attempts > 3` it is explored exactly when the
entry has zero impressions and optimized otherwise; the entry's attempts
counter is the previous count plus one, which yields the 1st-3rd call /
4th call scenarios of the spec. -/
theorem C4_exploration_status (st : ServerState) (req : OptimizeReq)
    (price floor_price : ℚ) (sp : Space) (hp : req.price = some price)
    (hf : req.floor_price = some floor_price) (hid : req.id ≠ "")
    (hctx : alookup req.ctx_hash st.spaces_dict = some sp)
    (hge : floor_price ≤ price) :
    ∃ entry : ReqEntry,
      alookup req.id (optimize st req).1.request_store = some entry ∧
      entry.attempts = (match alookup req.id st.request_store with
        | some e => e.attempts
        | none => 0) + 1 ∧
      (optimize st req).2 =
        OptResponse.priced (max (price * (9/10)) floor_price)
          (if entry.attempts ≤ EXPLORATION_ROUNDS then BidStatus.explored
           else if entry.impressions = 0 then BidStatus.explored
           else BidStatus.optimized) := by
  obtain ⟨entry, h1, _, h3, _, h5⟩ :=
    optimize_happy st req price floor_price sp hp hf hid hctx hge
  refine ⟨entry, h1, h3, ?_⟩
  rw [h5]
  by_cases ha : entry.attempts ≤ EXPLORATION_ROUNDS
  · simp [ha]
  · by_cases hi : entry.impressions = 0
    · simp [ha, hi]
    · simp [ha, hi, Nat.pos_of_ne_zero hi]

/-- Witness for C4 at a concrete state and request. -/
theorem C4_exploration_status_witness :
    ∃ entry : ReqEntry,
      alookup "r1" (optimize exState exReq).1.request_store = some entry ∧
      entry.attempts = (match alookup "r1" exState.request_store with
        | some e => e.attempts
        | none => 0) + 1 ∧
      (optimize exState exReq).2 =
        OptResponse.priced (max ((10 : ℚ) * (9/10)) 9)
          (if entry.attempts ≤ EXPLORATION_ROUNDS then BidStatus.explored
           else if entry.impressions = 0 then BidStatus.explored
           else BidStatus.optimized) :=
  C4_exploration_status exState exReq 10 9 exSpace rfl rfl
    (by decide) rfl (by norm_num)

/-- C5: with a known context and `price < floorPrice`, `optimize` returns
optimized price 0 with status error and leaves the whole server state
(in particular the request ledger) unchanged, whatever the prior ledger
contents. -/
theorem C5_below_floor_error (st : ServerState) (req : OptimizeReq)
    (price floor_price : ℚ) (sp : Space) (hp : req.price = some price)
    (hf : req.floor_price = some floor_price) (hid : req.id ≠ "")
    (hctx : alookup req.ctx_hash st.spaces_dict = some sp)
    (hlt : price < floor_price) :
    optimize st req = (st, OptResponse.priced 0 BidStatus.error) := by
  simp only [optimize, hp, hf, if_neg hid, hctx, Option.isNone_some,
    Bool.false_eq_true, if_false, hlt, if_true]

/-- Witness for C5 at a concrete state and request. -/
theorem C5_below_floor_error_witness :
    optimize exState { exReq with price := some 8 } =
      (exState, OptResponse.priced 0 BidStatus.error) :=
  C5_below_floor_error exState { exReq with price := some 8 } 8 9 exSpace
    rfl rfl (by decide) rfl (by norm_num)

/-- C10: for every optimize call with a known context and
`0 ≤ floorPrice ≤ price`, the response is a non-error status with an
optimized price between the floor and the requested price: the shrunk
candidate `0.9 * price` is clamped up to the floor and never exceeds the
requested price. -/
theorem C10_price_between_floor_and_request (st : ServerState)
    (req : OptimizeReq) (price floor_price : ℚ) (sp : Space)
    (hp : req.price = some price) (hf : req.floor_price = some floor_price)
    (hid : req.id ≠ "") (hctx : alookup req.ctx_hash st.spaces_dict = some sp)
    (h0 : 0 ≤ floor_price) (hge : floor_price ≤ price) :
    ∃ (p : ℚ) (status : BidStatus), (optimize st req).2 =
        OptResponse.priced p status ∧ status ≠ BidStatus.error ∧
      floor_price ≤ p ∧ p ≤ price := by
  obtain ⟨entry, _, _, _, _, h5⟩ :=
    optimize_happy st req price floor_price sp hp hf hid hctx hge
  refine ⟨max (price * (9/10)) floor_price, _, h5, ?_, le_max_right _ _, ?_⟩
  · by_cases ha : entry.attempts ≤ EXPLORATION_ROUNDS
    · simp [ha]
    · by_cases hi : 0 < entry.impressions
      · simp [ha, hi]
      · simp [ha, hi]
  · have hp0 : (0 : ℚ) ≤ price := le_trans h0 hge
    refine max_le ?_ hge
    nlinarith

/-- Witness for C10 at a concrete state and request. -/
theorem C10_price_between_floor_and_request_witness :
    ∃ (p : ℚ) (status : BidStatus), (optimize exState exReq).2 =
        OptResponse.priced p status ∧ status ≠ BidStatus.error ∧
      (9 : ℚ) ≤ p ∧ p ≤ 10 :=
  C10_price_between_floor_and_request exState exReq 10 9 exSpace rfl rfl
    (by decide) rfl (by norm_num) (by norm_num)

/-- C6: a well-formed feedback call whose request id has no ledger entry
returns `ack = false`, does not raise, and changes nothing: the returned
server state (ledger, spaces, buckets, winning curves and sample lists)
is exactly the input state. -/
theorem C6_unknown_feedback_soft_noop (st : ServerState) (req : FeedbackReq)
    (price : ℚ) (impression : Bool) (hp : req.price = some price)
    (hi : req.impression = some impression) (hid : req.id ≠ "")
    (hun : alookup req.id st.request_store = none) :
    feedback st req = (st, FbResponse.ack false) := by
  simp only [feedback, hp, hi, if_neg hid, hun]

/-- Witness for C6 at a concrete state and request. -/
theorem C6_unknown_feedback_soft_noop_witness :
    feedback exState exFbReq = (exState, FbResponse.ack false) :=
  C6_unknown_feedback_soft_noop exState exFbReq 1 true rfl rfl
    (by decide) rfl

theorem guardedFrom_feed_body :
    ∀ (idxs : List ℤ) (d : ℕ) (tail : List LockEv),
    guardedFrom (d + 1)
        ((idxs.foldr (fun idx acc => feedEvents idx ++ acc) []) ++ tail) =
      guardedFrom (d + 1) tail := by
  intro idxs
  induction idxs with
  | nil => intro d tail; rfl
  | cons idx rest ih =>
    intro d tail
    by_cases h : idx = -1
    · simp only [List.foldr_cons, feedEvents, h, if_true, List.nil_append]
      exact ih d tail
    · simp only [List.foldr_cons, feedEvents, h, if_false, List.cons_append,
        List.append_assoc]
      show guardedFrom (d + 1) (.mutation _ :: .mutation _ :: _) = _
      simp only [guardedFrom]
      rw [← List.append_assoc]
      exact ih d tail

theorem guardedFrom_learn_body :
    ∀ (datas : List (List Sample)),
    (datas.any fun data => decide (10 ≤ data.length)) = true →
    guardedFrom 0
      (datas.foldr (fun data acc => learnEvents data ++ acc) []) = false := by
  intro datas
  induction datas with
  | nil => intro h; simp at h
  | cons data rest ih =>
    intro h
    by_cases hbig : 10 ≤ data.length
    · simp only [List.foldr_cons, learnEvents, Nat.not_lt.mpr hbig, if_false,
        List.cons_append]
      rfl
    · have hns : data.length < 10 := by omega
      simp only [List.foldr_cons, learnEvents, hns, if_true, List.nil_append]
      apply ih
      simp only [List.any_cons, Bool.or_eq_true] at h
      rcases h with h1 | h1
      · exact absurd (of_decide_eq_true h1) hbig
      · exact h1

/-- C9 (lock discipline as exhibited by the code): every mutation done by
`Space.update_feedback` happens with the Space's lock held (its trace is
guarded), but `Space.learn` performs its read-modify-clear of the sample
lists and its winning-curve writes without ever acquiring the lock: for
any Space with at least one Level holding 10 or more accumulated samples,
the recalibration pass's mutation trace is unguarded.  This refutes the
claim that both operations are executed while holding the guard. -/
theorem C9_learn_mutates_without_lock :
    (∀ buckets_indices : List ℤ,
        guarded (update_feedback_trace buckets_indices) = true) ∧
      (∀ sp : Space,
        (sp.learning_data.any fun data => decide (10 ≤ data.length)) = true →
        guarded (learn_trace sp) = false) := by
  constructor
  · intro idxs
    show guardedFrom 0 ([LockEv.acquire] ++ _ ++ [LockEv.release]) = true
    rw [List.append_assoc]
    show guardedFrom (0 + 1) (_ ++ [LockEv.release]) = true
    rw [guardedFrom_feed_body idxs 0 [LockEv.release]]
    rfl
  · intro sp h
    exact guardedFrom_learn_body sp.learning_data h

/-- Witness for C9 at a concrete index list and the concrete space
`exSpace`, whose level 0 holds 10 samples. -/
theorem C9_learn_mutates_without_lock_witness :
    guarded (update_feedback_trace [0, -1]) = true ∧
      guarded (learn_trace exSpace) = false :=
  ⟨C9_learn_mutates_without_lock.1 [0, -1],
    C9_learn_mutates_without_lock.2 exSpace (by decide)⟩

end BidOptimizer
